import Mathlib

/-!
Verification model of the Minecraft server manager (src/server.js).

The Express route handlers are shallowly embedded as pure Lean functions over
an explicit filesystem state.  Host paths are modelled as lists of path
segments from the filesystem root; the filesystem itself is an association
list from absolute paths to nodes (regular file with content, or directory).
Node.js path.join and the JavaScript string operations used by the
containment checks (startsWith, endsWith, toLowerCase) are modelled
faithfully on segment lists and character lists.  The pm2 process manager is
an external collaborator; it is modelled as a list of registered processes,
with the operations the routes invoke on it (list/find, start, send).
-/

namespace MCManager

/-- Boolean test that the first list is a leading part (segment prefix) of the
second, used both for the segment-level containment comparison and for the
model of JavaScript string startsWith on character lists. -/
def beginsWith {α : Type} [DecidableEq α] : List α → List α → Bool
  | [], _ => true
  | _ :: _, [] => false
  | a :: as, b :: bs => if a = b then beginsWith as bs else false

/-- Model of the JavaScript string method startsWith: raw character-wise
string comparison, exactly what the source uses for its containment checks. -/
def jsStartsWith (s pre : String) : Bool := beginsWith pre.toList s.toList

/-- Model of the JavaScript string method endsWith. -/
def jsEndsWith (s suf : String) : Bool := beginsWith suf.toList.reverse s.toList.reverse

/-- Model of the JavaScript string method toLowerCase (ASCII range, which is
all the source compares: the literal suffix .zip). -/
def jsToLower (s : String) : String := String.mk (s.toList.map Char.toLower)

/-- Splits a character list at every occurrence of the separator character,
accumulating the current segment in reverse. -/
def splitCharAux (sep : Char) : List Char → List Char → List (List Char)
  | [], acc => [acc.reverse]
  | c :: cs, acc =>
    if c = sep then acc.reverse :: splitCharAux sep cs []
    else splitCharAux sep cs (c :: acc)

/-- Splits a string at every occurrence of the separator character; same
segmentation as String.splitOn with a one-character separator. -/
def splitChar (sep : Char) (s : String) : List String :=
  (splitCharAux sep s.toList []).map String.mk

/-- A host path, as the list of its segments from the filesystem root. -/
abbrev FsPath := List String

/-- One normalization step of Node.js path.join on an absolute base: empty
segments and single dots are dropped, a double dot removes the last segment
(staying at the root when already there), anything else is appended. -/
def applySegment (acc : FsPath) (seg : String) : FsPath :=
  if seg = "" ∨ seg = "." then acc
  else if seg = ".." then acc.dropLast
  else acc ++ [seg]

/-- Model of Node.js path.join(base, rel) for an absolute base path: the
relative part is split on the separator and folded over the base with the
normalization of applySegment. -/
def pathJoin (base : FsPath) (rel : String) : FsPath :=
  (splitChar '/' rel).foldl applySegment base

/-- Renders a segment path back to the absolute path string Node.js works
with; the empty segment list is the filesystem root. -/
def renderPath (p : FsPath) : String :=
  if p.isEmpty then "/" else p.foldl (fun acc seg => acc ++ "/" ++ seg) ""

/-- The application directory (the value of the dirname of server.js). -/
def appDir : FsPath := ["app"]

/-- The global servers directory, path.join(dirname, servers). -/
def serversDir : FsPath := pathJoin appDir "servers"

/-- The root directory of a named server instance,
path.join(serversDir, serverName). -/
def serverPathOf (serverName : String) : FsPath := pathJoin serversDir serverName

/-- A directory resolved inside a server root from a request-relative path,
path.join(serverPath, relativePath). -/
def scopedDir (serverName relativePath : String) : FsPath :=
  pathJoin (serverPathOf serverName) relativePath

/-- A file resolved inside a resolved directory,
path.join(targetDir, filename). -/
def scopedFilePath (serverName relativePath filename : String) : FsPath :=
  pathJoin (scopedDir serverName relativePath) filename

/-- The containment comparison every scoped route performs: the rendered
resolved path must start, as a raw string, with the rendered server root. -/
def containsCheck (serverName : String) (p : FsPath) : Bool :=
  jsStartsWith (renderPath p) (renderPath (serverPathOf serverName))

/-- A filesystem node: a regular file with its text content, or a directory. -/
inductive FsNode where
  | file (content : String)
  | dir
deriving Repr, DecidableEq

/-- The filesystem state: an association list from absolute segment paths to
nodes; the first matching entry is authoritative. -/
abbrev Fs := List (FsPath × FsNode)

/-- Model of fs.existsSync. -/
def existsSync (fs : Fs) (p : FsPath) : Bool := fs.any (fun e => e.1 = p)

/-- Looks up the node stored at a path. -/
def fsLookup (fs : Fs) (p : FsPath) : Option FsNode :=
  (fs.find? (fun e => e.1 = p)).map Prod.snd

/-- Model of stats.isDirectory after a stat call. -/
def isDirectory (fs : Fs) (p : FsPath) : Bool := fsLookup fs p = some FsNode.dir

/-- Model of fs.writeFile: full overwrite, creating or replacing the entry. -/
def fsWriteFile (fs : Fs) (p : FsPath) (c : String) : Fs :=
  (p, FsNode.file c) :: fs.filter (fun e => ¬ e.1 = p)

/-- Creates a single directory entry if the path is not already present. -/
def mkdirSingle (fs : Fs) (p : FsPath) : Fs :=
  if existsSync fs p then fs else (p, FsNode.dir) :: fs

/-- Worker for recursive mkdir: walks the remaining segments, creating each
intermediate directory if absent. -/
def mkdirRecAux (fs : Fs) (done : FsPath) : List String → Fs
  | [] => fs
  | s :: rest => mkdirRecAux (mkdirSingle fs (done ++ [s])) (done ++ [s]) rest

/-- Model of fs.mkdir with the recursive option: every leading part of the
path is created if absent; existing entries are left alone, so the call
silently succeeds on an existing directory. -/
def mkdirRecursive (fs : Fs) (p : FsPath) : Fs := mkdirRecAux fs [] p

/-- Model of fs.rm with the recursive option: removes the entry and the whole
subtree below it. -/
def rmRecursive (fs : Fs) (p : FsPath) : Fs :=
  fs.filter (fun e => ¬ beginsWith p e.1 = true)

/-- Model of fs.unlink: removes a single entry. -/
def fsUnlink (fs : Fs) (p : FsPath) : Fs := fs.filter (fun e => ¬ e.1 = p)

/-- Model of fs.rename: the entry at the source path and everything below it
is re-rooted at the destination path. -/
def renameEntry (fs : Fs) (src dst : FsPath) : Fs :=
  fs.map (fun e =>
    if beginsWith src e.1 then (dst ++ e.1.drop src.length, e.2) else e)

/-- Model of the recursive copyDirectory helper (and of copyFile for a plain
file): every entry under the source is duplicated under the destination. -/
def copyTree (fs : Fs) (src dst : FsPath) : Fs :=
  ((fs.filter (fun e => beginsWith src e.1)).map
    (fun e => (dst ++ e.1.drop src.length, e.2))) ++ fs

/-- Names of the immediate children of a directory, in filesystem order. -/
def childNames (fs : Fs) (d : FsPath) : List String :=
  fs.filterMap (fun e =>
    if e.1.length = d.length + 1 ∧ e.1.take d.length = d then e.1.getLast? else none)

/-- Containment as the spec words it: the root must equal the resolved path
or be a proper path-segment prefix of it, comparing segments rather than raw
strings. -/
def segContained (root p : FsPath) : Bool := beginsWith root p

/-- Outcome of the GET server files listing route. -/
inductive ListFilesResult where
  | invalidPath
  | serverNotFound
  | ok (names : List String)
deriving Repr, DecidableEq

/-- Handler of GET /api/servers/:serverName/files: joins the query path onto
the server root, applies the string-startsWith containment check, requires
the server directory to exist, lazily creates the target directory, and
lists its entries. -/
def listFilesHandler (fs : Fs) (serverName relativePath : String) :
    ListFilesResult × Fs :=
  let targetDir := scopedDir serverName relativePath
  if containsCheck serverName targetDir then
    if existsSync fs (serverPathOf serverName) then
      let fs1 := if existsSync fs targetDir then fs else mkdirRecursive fs targetDir
      (ListFilesResult.ok (childNames fs1 targetDir), fs1)
    else (ListFilesResult.serverNotFound, fs)
  else (ListFilesResult.invalidPath, fs)

/-- Outcome of the global file read route. -/
inductive ReadFileResult where
  | unauthorized
  | missingPath
  | notFound
  | ok (content : String)
  | readError
deriving Repr, DecidableEq

/-- Route GET /api/files/content including the session middleware: the
client-supplied absolute path is used directly, with no containment check of
any kind; the only guards are the session, a non-empty path, and existence.
Reading a directory makes readFile throw, caught as a 500. -/
def apiFilesContentGet (auth : Bool) (fs : Fs) (p : FsPath) : ReadFileResult :=
  if ¬ auth then ReadFileResult.unauthorized
  else if p = [] then ReadFileResult.missingPath
  else if ¬ existsSync fs p then ReadFileResult.notFound
  else
    match fsLookup fs p with
    | some (FsNode.file c) => ReadFileResult.ok c
    | _ => ReadFileResult.readError

/-- Outcome of the global file write route. -/
inductive WriteFileResult where
  | unauthorized
  | missingPath
  | ioError
  | ok
deriving Repr, DecidableEq

/-- Whether a write to the path can succeed on a real filesystem: the parent
must be a directory (or the root) and the target must not itself be a
directory.  The route performs no check of its own; this is the behavior of
fs.writeFile underneath it. -/
def osWriteAllowed (fs : Fs) (p : FsPath) : Bool :=
  (p.dropLast.isEmpty || isDirectory fs p.dropLast) && !isDirectory fs p

/-- Route POST /api/files/content including the session middleware: writes
the client-supplied content at the client-supplied absolute path with no
containment check; the only guards are the session and a non-empty path. -/
def apiFilesContentPost (auth : Bool) (fs : Fs) (p : FsPath) (content : String) :
    WriteFileResult × Fs :=
  if ¬ auth then (WriteFileResult.unauthorized, fs)
  else if p = [] then (WriteFileResult.missingPath, fs)
  else if osWriteAllowed fs p then (WriteFileResult.ok, fsWriteFile fs p content)
  else (WriteFileResult.ioError, fs)

/-- Outcome of the global file delete route. -/
inductive DeleteFileResult where
  | unauthorized
  | missingPath
  | notFound
  | ok
deriving Repr, DecidableEq

/-- Route DELETE /api/files including the session middleware: deletes the
entry at the client-supplied absolute path, recursively when it is a
directory, with no containment check; the guards are the session, a
non-empty path, and existence. -/
def apiFilesDelete (auth : Bool) (fs : Fs) (p : FsPath) : DeleteFileResult × Fs :=
  if ¬ auth then (DeleteFileResult.unauthorized, fs)
  else if p = [] then (DeleteFileResult.missingPath, fs)
  else if ¬ existsSync fs p then (DeleteFileResult.notFound, fs)
  else if isDirectory fs p then (DeleteFileResult.ok, rmRecursive fs p)
  else (DeleteFileResult.ok, fsUnlink fs p)

/-- Seed content of server.properties, templated with the creation time. -/
def serverPropertiesContent (now : String) : String :=
  "# Minecraft server properties\n# Generated on " ++ now ++
  "\ngamemode=survival\ndifficulty=normal\nlevel-type=DEFAULT\nmax-players=20\nonline-mode=true"

/-- Seed content of config.yml, templated with the instance name. -/
def configYmlContent (name : String) : String :=
  "# Configuration file\nserver-name: " ++ name ++ "\nmotd: Welcome to " ++ name ++
  " server!\nworld:\n  name: world\n  seed: 12345\n  generator: default\nplugins:\n  enabled:\n    - essentials\n    - worldedit"

/-- Seed content of bukkit.yml. -/
def bukkitYmlContent : String :=
  "# Bukkit configuration file\n# Settings for the Bukkit server implementation\n\nsettings:\n  allow-end: true\n  warn-on-overload: true\n  permissions-file: permissions.yml\n  update-folder: update\n  plugin-profiling: false\n  connection-throttle: 4000\n  query-plugins: true\n  deprecated-verbose: default\n  shutdown-message: Server closed\n  minimum-api: none\n\nspawn-limits:\n  monsters: 70\n  animals: 15\n  water-animals: 5\n  ambient: 15\n\nchunk-gc:\n  period-in-ticks: 600\n\nticks-per:\n  animal-spawns: 400\n  monster-spawns: 1\n  autosave: 6000\n\naliases:\n  icanhasbukkit: version $1-"

/-- Outcome of the server creation route. -/
inductive CreateResult where
  | ok
deriving Repr, DecidableEq

/-- The directory creation steps of the create route: the server root and
its plugins, logs and world subdirectories, all with recursive mkdir. -/
def createServerDirs (fs : Fs) (name : String) : Fs :=
  let serverPath := serverPathOf name
  let fs1 := mkdirRecursive fs serverPath
  let fs2 := mkdirRecursive fs1 (pathJoin serverPath "plugins")
  let fs3 := mkdirRecursive fs2 (pathJoin serverPath "logs")
  mkdirRecursive fs3 (pathJoin serverPath "world")

/-- Handler of POST /api/servers: creates the server directory and the
plugins, logs and world subdirectories with recursive mkdir (which silently
succeeds when the directories already exist), then writes the three seed
configuration files, overwriting any existing ones.  There is no conflict
branch: the handler succeeds whether or not the instance already existed. -/
def createServer (fs : Fs) (name now : String) : CreateResult × Fs :=
  let serverPath := serverPathOf name
  let fs4 := createServerDirs fs name
  let fs5 := fsWriteFile fs4 (pathJoin serverPath "server.properties") (serverPropertiesContent now)
  let fs6 := fsWriteFile fs5 (pathJoin serverPath "config.yml") (configYmlContent name)
  (CreateResult.ok, fsWriteFile fs6 (pathJoin serverPath "bukkit.yml") bukkitYmlContent)

/-- Extracts the server name from one filesystem entry the way the listing
route does: an immediate subdirectory of the servers directory. -/
def entryServerName (e : FsPath × FsNode) : Option String :=
  if e.2 = FsNode.dir then
    match e.1 with
    | [a, b, n] => if a = "app" ∧ b = "servers" then some n else none
    | _ => none
  else none

/-- The names reported by GET /api/servers: re-derived from the filesystem on
every call by listing the servers directory and keeping the directories. -/
def listServers (fs : Fs) : List String := fs.filterMap entryServerName

/-- Handler of GET /api/servers: lazily creates the servers directory when it
is absent, then derives the name list from the directory contents. -/
def listServersRoute (fs : Fs) : List String × Fs :=
  let fs1 := if existsSync fs serversDir then fs else mkdirRecursive fs serversDir
  (listServers fs1, fs1)

/-- Outcome of the server deletion route. -/
inductive DeleteServerResult where
  | invalidName
  | notFound
  | ok
deriving Repr, DecidableEq

/-- Handler of DELETE /api/servers/:serverName: string-startsWith guard
against the servers directory, 404 when the instance directory is absent,
otherwise recursive removal. -/
def deleteServer (fs : Fs) (serverName : String) : DeleteServerResult × Fs :=
  let serverPath := serverPathOf serverName
  if jsStartsWith (renderPath serverPath) (renderPath serversDir) then
    if existsSync fs serverPath then (DeleteServerResult.ok, rmRecursive fs serverPath)
    else (DeleteServerResult.notFound, fs)
  else (DeleteServerResult.invalidName, fs)

/-- Outcome of the scoped move, copy and rename routes. -/
inductive FileOpResult where
  | invalidPath
  | serverNotFound
  | sourceNotFound
  | destDirNotFound
  | destExists
  | ok
deriving Repr, DecidableEq

/-- HTTP status attached to each outcome of the scoped file operations. -/
def fileOpStatus : FileOpResult → Nat
  | FileOpResult.invalidPath => 400
  | FileOpResult.serverNotFound => 404
  | FileOpResult.sourceNotFound => 404
  | FileOpResult.destDirNotFound => 404
  | FileOpResult.destExists => 400
  | FileOpResult.ok => 200

/-- Handler of POST /api/servers/:serverName/move: resolves source and
destination under the server root, applies the string containment check,
then checks in order that the server, the source, and the destination
directory exist and that the destination file does not, before renaming. -/
def moveHandler (fs : Fs) (serverName filename destinationPath currentPath : String) :
    FileOpResult × Fs :=
  let sourceFilePath := scopedFilePath serverName currentPath filename
  let destFilePath := scopedFilePath serverName destinationPath filename
  if containsCheck serverName sourceFilePath && containsCheck serverName destFilePath then
    if existsSync fs (serverPathOf serverName) then
      if existsSync fs sourceFilePath then
        if existsSync fs (scopedDir serverName destinationPath) then
          if existsSync fs destFilePath then (FileOpResult.destExists, fs)
          else (FileOpResult.ok, renameEntry fs sourceFilePath destFilePath)
        else (FileOpResult.destDirNotFound, fs)
      else (FileOpResult.sourceNotFound, fs)
    else (FileOpResult.serverNotFound, fs)
  else (FileOpResult.invalidPath, fs)

/-- Handler of POST /api/servers/:serverName/copy: same resolution and guard
sequence as the move route, then a recursive copy for directories or a plain
file copy. -/
def copyHandler (fs : Fs) (serverName filename destinationPath currentPath : String) :
    FileOpResult × Fs :=
  let sourceFilePath := scopedFilePath serverName currentPath filename
  let destFilePath := scopedFilePath serverName destinationPath filename
  if containsCheck serverName sourceFilePath && containsCheck serverName destFilePath then
    if existsSync fs (serverPathOf serverName) then
      if existsSync fs sourceFilePath then
        if existsSync fs (scopedDir serverName destinationPath) then
          if existsSync fs destFilePath then (FileOpResult.destExists, fs)
          else
            match fsLookup fs sourceFilePath with
            | some (FsNode.file c) => (FileOpResult.ok, (destFilePath, FsNode.file c) :: fs)
            | _ => (FileOpResult.ok, copyTree fs sourceFilePath destFilePath)
        else (FileOpResult.destDirNotFound, fs)
      else (FileOpResult.sourceNotFound, fs)
    else (FileOpResult.serverNotFound, fs)
  else (FileOpResult.invalidPath, fs)

/-- Handler of POST /api/servers/:serverName/rename: resolves old and new
names inside the same directory, applies the string containment check, then
requires the server and the source to exist and the new name not to, before
renaming.  Unlike move and copy there is no separate destination-directory
check. -/
def renameHandler (fs : Fs) (serverName oldName newName currentPath : String) :
    FileOpResult × Fs :=
  let oldFilePath := scopedFilePath serverName currentPath oldName
  let newFilePath := scopedFilePath serverName currentPath newName
  if containsCheck serverName oldFilePath && containsCheck serverName newFilePath then
    if existsSync fs (serverPathOf serverName) then
      if existsSync fs oldFilePath then
        if existsSync fs newFilePath then (FileOpResult.destExists, fs)
        else (FileOpResult.ok, renameEntry fs oldFilePath newFilePath)
      else (FileOpResult.sourceNotFound, fs)
    else (FileOpResult.serverNotFound, fs)
  else (FileOpResult.invalidPath, fs)

/-- Outcome of the scoped archive extraction route. -/
inductive ExtractResult where
  | invalidPath
  | serverNotFound
  | fileNotFound
  | notZip
  | ok
deriving Repr, DecidableEq

/-- Handler of POST /api/servers/:serverName/extract/:filename: resolves the
archive inside the server root, applies the string containment check,
requires the server and the archive file to exist, rejects filenames whose
lowercased form does not end in .zip, and otherwise extracts into the target
directory.  The zip codec itself is an external collaborator, passed in as
the extraction action on the filesystem. -/
def extractHandler (extractAllTo : Fs → FsPath → FsPath → Fs) (fs : Fs)
    (serverName filename relativePath : String) : ExtractResult × Fs :=
  let targetDir := scopedDir serverName relativePath
  let filePath := scopedFilePath serverName relativePath filename
  if containsCheck serverName filePath then
    if existsSync fs (serverPathOf serverName) then
      if existsSync fs filePath then
        if jsEndsWith (jsToLower filename) ".zip" then
          (ExtractResult.ok, extractAllTo fs filePath targetDir)
        else (ExtractResult.notZip, fs)
      else (ExtractResult.fileNotFound, fs)
    else (ExtractResult.serverNotFound, fs)
  else (ExtractResult.invalidPath, fs)

/-- Outcome of the global archive extraction route. -/
inductive ExtractGlobalResult where
  | missingPath
  | fileNotFound
  | notZip
  | ok
deriving Repr, DecidableEq

/-- Route POST /api/extract: takes a raw absolute archive path and an
optional target, requires the archive to exist, rejects paths whose
lowercased form does not end in .zip, and otherwise extracts into the target
(defaulting to the directory of the archive). -/
def apiExtract (extractAllTo : Fs → FsPath → FsPath → Fs) (fs : Fs)
    (filePath : String) (targetPath : Option String) : ExtractGlobalResult × Fs :=
  if filePath = "" then (ExtractGlobalResult.missingPath, fs)
  else
    let p := pathJoin [] filePath
    if existsSync fs p then
      if jsEndsWith (jsToLower filePath) ".zip" then
        let target := match targetPath with
          | some t => pathJoin [] t
          | none => p.dropLast
        (ExtractGlobalResult.ok, extractAllTo fs p target)
      else (ExtractGlobalResult.notZip, fs)
    else (ExtractGlobalResult.fileNotFound, fs)

/-- One process registered with the external pm2 manager. -/
structure Pm2Proc where
  name : String
  status : String
  pmId : Nat
  pid : Nat
  cwd : FsPath
deriving Repr, DecidableEq

/-- The external process manager state: its list of registered processes. -/
abbrev Pm2State := List Pm2Proc

/-- The lookup every route performs on the pm2 list: the first process whose
name matches the server name. -/
def pm2Find (procs : Pm2State) (serverName : String) : Option Pm2Proc :=
  procs.find? (fun p => p.name = serverName)

/-- Modelled from the spec: pm2.start is owned by the external process
manager, which is absent from src; per the spec it registers a new managed
process bound to the given working directory, after which the process is
online. -/
def pm2Start (procs : Pm2State) (serverName : String) (cwd : FsPath)
    (newPmId newPid : Nat) : Pm2State :=
  procs ++ [{ name := serverName, status := "online", pmId := newPmId,
              pid := newPid, cwd := cwd }]

/-- Outcome of the start route. -/
inductive StartResult where
  | alreadyRunning
  | serverNotFound
  | started
deriving Repr, DecidableEq

/-- Handler of POST /api/servers/:serverName/start: when a process with the
server name is already in the pm2 list, reports success without starting
anything; otherwise requires the server directory to exist and registers a
new process with pm2, bound to the server root as its working directory. -/
def startHandler (fs : Fs) (procs : Pm2State) (serverName : String)
    (newPmId newPid : Nat) : StartResult × Pm2State :=
  match pm2Find procs serverName with
  | some _ => (StartResult.alreadyRunning, procs)
  | none =>
    if existsSync fs (serverPathOf serverName) then
      (StartResult.started, pm2Start procs serverName (serverPathOf serverName) newPmId newPid)
    else (StartResult.serverNotFound, procs)

/-- The status report of GET /api/servers/:serverName/status. -/
structure StatusReport where
  running : Bool
  status : String
deriving Repr, DecidableEq

/-- Handler of GET /api/servers/:serverName/status: re-queries the pm2 list
on every call; a registered process reports running exactly when its pm2
status is online, and an absent name reports a normal stopped result. -/
def statusHandler (procs : Pm2State) (serverName : String) : StatusReport :=
  match pm2Find procs serverName with
  | some p => { running := p.status = "online", status := p.status }
  | none => { running := false, status := "stopped" }

/-- One step of the readLastLines loop of the console route: push the line,
then shift the oldest one off when the buffer exceeds the limit. -/
def pushLine (n : Nat) (acc : List String) (line : String) : List String :=
  let acc2 := acc ++ [line]
  if n < acc2.length then acc2.drop 1 else acc2

/-- The readLastLines helper of the console route: folds the on-line event
handler over the lines of the file. -/
def readLastLines (lines : List String) (n : Nat) : List String :=
  lines.foldl (pushLine n) []

/-- The last n elements of a list, in order. -/
def lastN (n : Nat) (l : List String) : List String := l.drop (l.length - n)

/-- The lines the readline interface emits for a file content: segments
between newline characters, without a final empty segment when the content
ends in a newline, and no lines at all for empty content. -/
def linesOf (c : String) : List String :=
  let parts := splitChar '\n' c
  if parts.getLast? = some "" then parts.dropLast else parts

/-- Outcome of the console route. -/
inductive ConsoleResult where
  | serverNotFound
  | logs (lines : List String)
deriving Repr, DecidableEq

/-- Handler of GET /api/servers/:serverName/console: requires the server
directory, lazily creates the logs directory and an empty log file on first
run, then reports the last 100 lines of the log; when reading fails it
reports an empty line list rather than an error. -/
def consoleHandler (fs : Fs) (serverName : String) : ConsoleResult × Fs :=
  let logsDir := scopedDir serverName "logs"
  let logFile := pathJoin logsDir "server.log"
  if existsSync fs (serverPathOf serverName) then
    let fs1 := if existsSync fs logsDir then fs else mkdirRecursive fs logsDir
    let fs2 := if existsSync fs1 logFile then fs1 else fsWriteFile fs1 logFile ""
    match fsLookup fs2 logFile with
    | some (FsNode.file c) => (ConsoleResult.logs (readLastLines (linesOf c) 100), fs2)
    | _ => (ConsoleResult.logs [], fs2)
  else (ConsoleResult.serverNotFound, fs)

/-- Per-file entry of the bulk move response. -/
structure MoveItemResult where
  filename : String
  moved : Bool
deriving Repr, DecidableEq

/-- Outcome of the bulk move route. -/
inductive MoveMultipleResult where
  | invalidPath
  | serverNotFound
  | destDirNotFound
  | completed (results : List MoveItemResult)
deriving Repr, DecidableEq

/-- HTTP status attached to each outcome of the bulk move route: the per-file
results are delivered in a plain 200 response. -/
def moveMultipleStatus : MoveMultipleResult → Nat
  | MoveMultipleResult.invalidPath => 400
  | MoveMultipleResult.serverNotFound => 404
  | MoveMultipleResult.destDirNotFound => 404
  | MoveMultipleResult.completed _ => 200

/-- One iteration of the bulk move loop: a missing source or an existing
destination records a per-file error entry and leaves the filesystem alone;
otherwise the file is renamed into the destination directory. -/
def moveOneFile (sourceDir destDir : FsPath) (st : Fs × List MoveItemResult)
    (filename : String) : Fs × List MoveItemResult :=
  let sourceFilePath := pathJoin sourceDir filename
  let destFilePath := pathJoin destDir filename
  if existsSync st.1 sourceFilePath then
    if existsSync st.1 destFilePath then (st.1, st.2 ++ [⟨filename, false⟩])
    else (renameEntry st.1 sourceFilePath destFilePath, st.2 ++ [⟨filename, true⟩])
  else (st.1, st.2 ++ [⟨filename, false⟩])

/-- Handler of POST /api/servers/:serverName/move-multiple: resolves the
source and destination directories under the server root, applies the string
containment check, requires the server and the destination directory to
exist, then processes every file through the loop and responds 200 with the
per-file result list. -/
def moveMultipleHandler (fs : Fs) (serverName : String) (filenames : List String)
    (destinationPath currentPath : String) : MoveMultipleResult × Fs :=
  let sourceDir := scopedDir serverName currentPath
  let destDir := scopedDir serverName destinationPath
  if containsCheck serverName sourceDir && containsCheck serverName destDir then
    if existsSync fs (serverPathOf serverName) then
      if existsSync fs destDir then
        let st := filenames.foldl (moveOneFile sourceDir destDir) (fs, [])
        (MoveMultipleResult.completed st.2, st.1)
      else (MoveMultipleResult.destDirNotFound, fs)
    else (MoveMultipleResult.serverNotFound, fs)
  else (MoveMultipleResult.invalidPath, fs)

/-- Outcome of the command route.  In the source, the callback passed to
pm2.sendDataToProcessId binds its second parameter with the same identifier
as the Express response object; inside the callback, the response object is
therefore the pm2 acknowledgment value, which has no json or status method.
Both the success and the failure branch of the callback call a method on
that shadowed value, so once the command is handed to pm2 no HTTP response
is produced and a TypeError is raised instead. -/
inductive CommandOutcome where
  | emptyCommand
  | notRunning
  | shadowedNoResponse
deriving Repr, DecidableEq

/-- Handler of POST /api/servers/:serverName/command: rejects an empty
command with 400, a server name with no registered pm2 process with 404, and
otherwise forwards the command to the found process id through the pm2
messaging facility; the pair component collects the messages handed to pm2.
The success branch then fails to answer the HTTP request, as described on
CommandOutcome. -/
def commandHandler (procs : Pm2State) (serverName command : String) :
    CommandOutcome × List (Nat × String) :=
  if command = "" then (CommandOutcome.emptyCommand, [])
  else
    match pm2Find procs serverName with
    | none => (CommandOutcome.notRunning, [])
    | some p => (CommandOutcome.shadowedNoResponse, [(p.pmId, command)])

/-- Concrete filesystem with a server s1 and a sibling directory s1x whose
name extends s1 as a string. -/
def c1Fs : Fs :=
  [(["app"], FsNode.dir),
   (["app", "servers"], FsNode.dir),
   (["app", "servers", "s1"], FsNode.dir),
   (["app", "servers", "s1x"], FsNode.dir),
   (["app", "servers", "s1x", "secret.txt"], FsNode.file "top-secret")]

/-- Concrete filesystem with an existing server s1 whose config.yml holds
operator-customized content. -/
def c3Fs : Fs :=
  [(["app"], FsNode.dir),
   (["app", "servers"], FsNode.dir),
   (["app", "servers", "s1"], FsNode.dir),
   (["app", "servers", "s1", "config.yml"], FsNode.file "custom-settings")]

/-- Concrete filesystem used by the witnesses: server s1 with a file a.txt at
its root, a subdirectory d that already holds a file named a.txt, a non-zip
archive, and a three-line log file. -/
def wFs : Fs :=
  [(["app"], FsNode.dir),
   (["app", "servers"], FsNode.dir),
   (["app", "servers", "s1"], FsNode.dir),
   (["app", "servers", "s1", "plugins"], FsNode.dir),
   (["app", "servers", "s1", "logs"], FsNode.dir),
   (["app", "servers", "s1", "logs", "server.log"], FsNode.file "one\ntwo\nthree\n"),
   (["app", "servers", "s1", "a.txt"], FsNode.file "hello"),
   (["app", "servers", "s1", "d"], FsNode.dir),
   (["app", "servers", "s1", "d", "a.txt"], FsNode.file "occupied"),
   (["app", "servers", "s1", "arc.rar"], FsNode.file "rar-bytes"),
   (["etc"], FsNode.dir),
   (["etc", "passwd"], FsNode.file "root:x")]

/-- Concrete filesystem with a server s2 that has no logs directory and no
log file yet. -/
def c8Fs : Fs :=
  [(["app"], FsNode.dir),
   (["app", "servers"], FsNode.dir),
   (["app", "servers", "s2"], FsNode.dir)]

/-- Concrete pm2 state with one registered online process named s1. -/
def wProcs : Pm2State :=
  [{ name := "s1", status := "online", pmId := 3, pid := 42,
     cwd := ["app", "servers", "s1"] }]

/-- A concrete extraction action standing in for the zip codec: writes one
entry into the target directory, so that a run of the success branch is
visible in the filesystem. -/
def sampleExtract (fs : Fs) (_archive target : FsPath) : Fs :=
  fsWriteFile fs (target ++ ["unpacked.txt"]) "unpacked"

/-- A list is a leading part of itself extended by anything. -/
theorem beginsWith_append {α : Type} [DecidableEq α] (l t : List α) :
    beginsWith l (l ++ t) = true := by
  induction l with
  | nil => rfl
  | cons a as ih => simp [beginsWith, ih]

/-- A list is a leading part of itself. -/
theorem beginsWith_refl {α : Type} [DecidableEq α] (l : List α) :
    beginsWith l l = true := by
  have h := beginsWith_append l []
  simpa using h

/-- A leading part is no longer than the whole. -/
theorem beginsWith_length {α : Type} [DecidableEq α] :
    ∀ {a b : List α}, beginsWith a b = true → a.length ≤ b.length := by
  intro a
  induction a with
  | nil => intro b _; exact Nat.zero_le _
  | cons x xs ih =>
    intro b h
    cases b with
    | nil => simp [beginsWith] at h
    | cons y ys =>
      by_cases hxy : x = y
      · simp [beginsWith, hxy] at h
        simpa using Nat.succ_le_succ (ih h)
      · simp [beginsWith, hxy] at h

/-- Concatenating on the right preserves the startsWith test of the base. -/
theorem jsStartsWith_append (s t : String) : jsStartsWith (s ++ t) s = true := by
  obtain ⟨ls⟩ := s
  obtain ⟨lt⟩ := t
  exact beginsWith_append ls lt

/-- Membership at a path makes existsSync true. -/
theorem existsSync_of_mem {fs : Fs} {p : FsPath} {n : FsNode}
    (h : (p, n) ∈ fs) : existsSync fs p = true := by
  unfold existsSync
  rw [List.any_eq_true]
  exact ⟨(p, n), h, by simp⟩

/-- An absent path has no entries at all. -/
theorem not_mem_of_existsSync_false {fs : Fs} {p : FsPath} {n : FsNode}
    (h : existsSync fs p = false) : (p, n) ∉ fs := by
  intro hmem
  rw [existsSync_of_mem hmem] at h
  exact absurd h (by simp)

/-- A successful lookup yields a member entry at that path. -/
theorem mem_of_fsLookup {fs : Fs} {p : FsPath} {n : FsNode}
    (h : fsLookup fs p = some n) : (p, n) ∈ fs := by
  unfold fsLookup at h
  cases hf : fs.find? (fun e => e.1 = p) with
  | none => rw [hf] at h; simp at h
  | some e =>
    rw [hf] at h
    simp at h
    have hmem := List.mem_of_find?_eq_some hf
    have hpred := List.find?_some hf
    simp at hpred
    have he : e = (p, n) := by
      obtain ⟨e1, e2⟩ := e
      simp only at hpred h
      simp [hpred, h]
    rwa [he] at hmem

/-- A successful lookup makes existsSync true. -/
theorem existsSync_of_fsLookup {fs : Fs} {p : FsPath} {n : FsNode}
    (h : fsLookup fs p = some n) : existsSync fs p = true :=
  existsSync_of_mem (mem_of_fsLookup h)

/-- existsSync false forces lookup to fail. -/
theorem fsLookup_eq_none_of_existsSync_false {fs : Fs} {p : FsPath}
    (h : existsSync fs p = false) : fsLookup fs p = none := by
  cases hl : fsLookup fs p with
  | none => rfl
  | some n => rw [existsSync_of_fsLookup hl] at h; exact absurd h (by simp)

/-- Writing a file stores exactly that content at the path. -/
theorem fsLookup_fsWriteFile_self (fs : Fs) (p : FsPath) (c : String) :
    fsLookup (fsWriteFile fs p c) p = some (FsNode.file c) := by
  simp [fsLookup, fsWriteFile]

/-- Finding by one key is unaffected by filtering away a different key. -/
theorem find?_filter_ne (fs : Fs) {p q : FsPath} (h : q ≠ p) :
    (fs.filter (fun e => ¬ e.1 = p)).find? (fun e => e.1 = q) =
      fs.find? (fun e => e.1 = q) := by
  induction fs with
  | nil => rfl
  | cons a as ih =>
    by_cases haq : a.1 = q
    · have hap : ¬ a.1 = p := by rw [haq]; exact h
      rw [List.filter_cons_of_pos (by simpa using hap)]
      rw [List.find?_cons_of_pos _ (by simpa using haq),
          List.find?_cons_of_pos _ (by simpa using haq)]
    · by_cases hap : a.1 = p
      · rw [List.filter_cons_of_neg (by simpa using hap)]
        rw [List.find?_cons_of_neg _ (by simpa using haq), ih]
      · rw [List.filter_cons_of_pos (by simpa using hap)]
        rw [List.find?_cons_of_neg _ (by simpa using haq),
            List.find?_cons_of_neg _ (by simpa using haq), ih]

/-- Writing a file leaves every other path unchanged. -/
theorem fsLookup_fsWriteFile_ne (fs : Fs) {p q : FsPath} (c : String)
    (h : q ≠ p) : fsLookup (fsWriteFile fs p c) q = fsLookup fs q := by
  unfold fsLookup fsWriteFile
  rw [List.find?_cons_of_neg _ (by simpa using Ne.symm h)]
  rw [find?_filter_ne fs h]

/-- Writing a file keeps every entry stored under a different path. -/
theorem mem_fsWriteFile_of_ne {fs : Fs} {e : FsPath × FsNode} {p : FsPath}
    (c : String) (hne : e.1 ≠ p) (h : e ∈ fs) : e ∈ fsWriteFile fs p c := by
  unfold fsWriteFile
  exact List.mem_cons_of_mem _ (List.mem_filter.mpr ⟨h, by simpa using hne⟩)

/-- existsSync for a different path is unchanged by a file write. -/
theorem existsSync_fsWriteFile_ne (fs : Fs) {p q : FsPath} (c : String)
    (h : q ≠ p) : existsSync (fsWriteFile fs p c) q = existsSync fs q := by
  cases hx : existsSync fs q with
  | true =>
    simp only [existsSync, List.any_eq_true] at hx
    obtain ⟨e, hmem, hp⟩ := hx
    simp only [decide_eq_true_eq] at hp
    exact existsSync_of_mem (n := e.2) (by
      have : e = (q, e.2) := by rw [← hp]
      rw [← this]
      exact mem_fsWriteFile_of_ne c (by rw [hp]; exact h) hmem)
  | false =>
    cases hy : existsSync (fsWriteFile fs p c) q with
    | false => rfl
    | true =>
      exfalso
      simp only [existsSync, List.any_eq_true] at hy
      obtain ⟨e, hmem, hp⟩ := hy
      simp only [decide_eq_true_eq] at hp
      unfold fsWriteFile at hmem
      rcases List.mem_cons.mp hmem with heq | hmem2
      · rw [heq] at hp
        exact h (hp ▸ rfl)
      · have := (List.mem_filter.mp hmem2).1
        have hq : (e.1, e.2) ∈ fs := by simpa using this
        rw [hp] at hq
        exact absurd (existsSync_of_mem hq) (by simp [hx])

/-- mkdirSingle keeps every existing entry. -/
theorem mem_mkdirSingle {fs : Fs} {e : FsPath × FsNode} (p : FsPath)
    (h : e ∈ fs) : e ∈ mkdirSingle fs p := by
  unfold mkdirSingle
  by_cases hx : existsSync fs p
  · simpa [hx] using h
  · simp [hx]
    right
    exact h

/-- mkdirSingle only ever adds a directory entry. -/
theorem mem_mkdirSingle_inv {fs : Fs} {e : FsPath × FsNode} {p : FsPath}
    (h : e ∈ mkdirSingle fs p) : e ∈ fs ∨ e = (p, FsNode.dir) := by
  unfold mkdirSingle at h
  by_cases hx : existsSync fs p
  · rw [if_pos hx] at h
    exact Or.inl h
  · rw [if_neg hx] at h
    rcases List.mem_cons.mp h with heq | hm
    · exact Or.inr heq
    · exact Or.inl hm

/-- The recursive mkdir worker keeps every existing entry. -/
theorem mem_mkdirRecAux {e : FsPath × FsNode} :
    ∀ (l : List String) (fs : Fs) (done : FsPath),
      e ∈ fs → e ∈ mkdirRecAux fs done l := by
  intro l
  induction l with
  | nil => intro fs done h; exact h
  | cons s rest ih =>
    intro fs done h
    exact ih _ _ (mem_mkdirSingle _ h)

/-- Recursive mkdir keeps every existing entry. -/
theorem mem_mkdirRecursive {fs : Fs} {e : FsPath × FsNode} (p : FsPath)
    (h : e ∈ fs) : e ∈ mkdirRecursive fs p :=
  mem_mkdirRecAux p fs [] h

/-- Anything the recursive mkdir worker adds is a directory entry at a path
no longer than the requested one. -/
theorem mem_mkdirRecAux_inv {e : FsPath × FsNode} :
    ∀ (l : List String) (fs : Fs) (done : FsPath),
      e ∈ mkdirRecAux fs done l →
        e ∈ fs ∨ (e.2 = FsNode.dir ∧ e.1.length ≤ done.length + l.length) := by
  intro l
  induction l with
  | nil => intro fs done h; exact Or.inl h
  | cons s rest ih =>
    intro fs done h
    rcases ih (mkdirSingle fs (done ++ [s])) (done ++ [s]) h with hin | ⟨hd, hlen⟩
    · rcases mem_mkdirSingle_inv hin with hin2 | heq
      · exact Or.inl hin2
      · refine Or.inr ⟨by rw [heq], ?_⟩
        rw [heq]
        simp
    · refine Or.inr ⟨hd, ?_⟩
      simp at hlen ⊢
      omega

/-- Anything recursive mkdir adds is a directory entry at a path no longer
than the requested one. -/
theorem mem_mkdirRecursive_inv {fs : Fs} {e : FsPath × FsNode} {p : FsPath}
    (h : e ∈ mkdirRecursive fs p) :
    e ∈ fs ∨ (e.2 = FsNode.dir ∧ e.1.length ≤ p.length) := by
  rcases mem_mkdirRecAux_inv p fs [] h with hin | ⟨hd, hlen⟩
  · exact Or.inl hin
  · exact Or.inr ⟨hd, by simpa using hlen⟩

/-- Recursive removal erases the whole subtree at the path. -/
theorem not_mem_rmRecursive {fs : Fs} {p q : FsPath} {n : FsNode}
    (h : beginsWith p q = true) : (q, n) ∉ rmRecursive fs p := by
  intro hmem
  have := (List.mem_filter.mp hmem).2
  simp at this
  exact absurd h (by simpa using this)

/-- After unlink the path no longer exists. -/
theorem existsSync_fsUnlink_self (fs : Fs) (p : FsPath) :
    existsSync (fsUnlink fs p) p = false := by
  cases hx : existsSync (fsUnlink fs p) p with
  | false => rfl
  | true =>
    exfalso
    simp only [existsSync, List.any_eq_true] at hx
    obtain ⟨e, hmem, hp⟩ := hx
    simp only [decide_eq_true_eq] at hp
    have := (List.mem_filter.mp hmem).2
    simp at this
    exact this hp

/-- After recursive removal the path no longer exists. -/
theorem existsSync_rmRecursive_self (fs : Fs) (p : FsPath) :
    existsSync (rmRecursive fs p) p = false := by
  cases hx : existsSync (rmRecursive fs p) p with
  | false => rfl
  | true =>
    exfalso
    simp only [existsSync, List.any_eq_true] at hx
    obtain ⟨e, hmem, hp⟩ := hx
    simp only [decide_eq_true_eq] at hp
    have he : e = (p, e.2) := by rw [← hp]
    rw [he] at hmem
    exact not_mem_rmRecursive (beginsWith_refl p) hmem

/-- Joining a slash-free plain name appends exactly one segment. -/
theorem pathJoin_single (base : FsPath) {name : String}
    (hseg : splitChar '/' name = [name]) (h1 : name ≠ "") (h2 : name ≠ ".")
    (h3 : name ≠ "..") : pathJoin base name = base ++ [name] := by
  unfold pathJoin
  rw [hseg]
  simp [applySegment, h1, h2, h3]

/-- Inversion of the per-entry server name extraction: it succeeds exactly on
a directory entry immediately inside the servers directory. -/
theorem entryServerName_eq_some {e : FsPath × FsNode} {name : String} :
    entryServerName e = some name ↔ e = (["app", "servers", name], FsNode.dir) := by
  obtain ⟨p, node⟩ := e
  cases node with
  | file c => simp [entryServerName]
  | dir =>
    match p with
    | [] => simp [entryServerName]
    | [a] => simp [entryServerName]
    | [a, b] => simp [entryServerName]
    | [a, b, n] =>
      by_cases hab : a = "app" ∧ b = "servers"
      · simp [entryServerName, hab, hab.1, hab.2]
      · simp [entryServerName, hab]
        intro ha hb hn
        exact hab ⟨ha, hb⟩
    | a :: b :: c :: d :: rest => simp [entryServerName]

/-- Membership in the derived server list is exactly a directory entry
immediately inside the servers directory. -/
theorem mem_listServers {fs : Fs} {name : String} :
    name ∈ listServers fs ↔ (["app", "servers", name], FsNode.dir) ∈ fs := by
  unfold listServers
  rw [List.mem_filterMap]
  constructor
  · intro ⟨e, hmem, hsome⟩
    rwa [entryServerName_eq_some.mp hsome] at hmem
  · intro h
    exact ⟨(["app", "servers", name], FsNode.dir), h, entryServerName_eq_some.mpr rfl⟩

/-- Finding in an extended list falls through to the extension when the
original list has no match. -/
theorem find?_append_of_none {α : Type} {f : α → Bool} :
    ∀ {l1 : List α} (l2 : List α), l1.find? f = none →
      (l1 ++ l2).find? f = l2.find? f := by
  intro l1
  induction l1 with
  | nil => intro l2 _; rfl
  | cons a as ih =>
    intro l2 h
    cases hf : f a with
    | true => rw [List.find?_cons_of_pos _ hf] at h; simp at h
    | false =>
      rw [List.find?_cons_of_neg _ (by simp [hf])] at h
      rw [List.cons_append, List.find?_cons_of_neg _ (by simp [hf])]
      exact ih l2 h

/-- Rendering a path extended by one segment appends a separator and the
segment. -/
theorem renderPath_append_single (base : FsPath) (x : String) :
    renderPath (base ++ [x]) = renderPath base ++ "/" ++ x ∨ base = [] := by
  cases base with
  | nil => exact Or.inr rfl
  | cons b bs =>
    left
    unfold renderPath
    simp [List.foldl_append]

/-- The tail buffer never holds more than the limit. -/
theorem length_lastN_le (n : Nat) (l : List String) : (lastN n l).length ≤ n := by
  unfold lastN
  simp
  omega

/-- The last n elements of a list that is no longer than n are the whole
list. -/
theorem lastN_of_le {n : Nat} {l : List String} (h : l.length ≤ n) :
    lastN n l = l := by
  unfold lastN
  have hz : l.length - n = 0 := by omega
  rw [hz]
  rfl

/-- Dropping past the left part of an append drops into the right part. -/
theorem drop_append_len {α : Type} :
    ∀ (t m : List α) (j : Nat), (t ++ m).drop (t.length + j) = m.drop j := by
  intro t
  induction t with
  | nil => intro m j; simp
  | cons a as ih =>
    intro m j
    have hc : (a :: as).length + j = (as.length + j) + 1 := by simp; omega
    rw [hc, List.cons_append, List.drop_succ_cons, ih]

/-- The last n elements of an append ignore the left part when the right
part is already long enough. -/
theorem lastN_append_long (t m : List String) (n : Nat) (h : n ≤ m.length) :
    lastN n (t ++ m) = lastN n m := by
  unfold lastN
  have h1 : (t ++ m).length - n = t.length + (m.length - n) := by simp; omega
  rw [h1, drop_append_len]

/-- Condensing the accumulator to its last n elements does not change the
last n elements of any extension. -/
theorem lastN_lastN_append (acc l : List String) (n : Nat) :
    lastN n (lastN n acc ++ l) = lastN n (acc ++ l) := by
  by_cases h : acc.length ≤ n
  · rw [lastN_of_le h]
  · have hlen : (lastN n acc).length = n := by
      unfold lastN; simp; omega
    have hsplit : acc = acc.take (acc.length - n) ++ lastN n acc := by
      unfold lastN
      rw [List.take_append_drop]
    conv_rhs => rw [hsplit]
    rw [List.append_assoc,
      lastN_append_long (acc.take (acc.length - n)) (lastN n acc ++ l) n
        (by rw [List.length_append, hlen]; omega)]

/-- One loop step of the console tail is exactly the last n elements of the
input so far, provided the buffer is within the limit. -/
theorem pushLine_eq_lastN {n : Nat} {acc : List String} (x : String)
    (h : acc.length ≤ n) : pushLine n acc x = lastN n (acc ++ [x]) := by
  unfold pushLine lastN
  by_cases hlt : n < (acc ++ [x]).length
  · rw [if_pos hlt]
    have h1 : (acc ++ [x]).length - n = 1 := by simp at hlt ⊢; omega
    rw [h1]
  · rw [if_neg hlt]
    have h0 : (acc ++ [x]).length - n = 0 := by simp at hlt ⊢; omega
    rw [h0, List.drop_zero]

/-- The console tail fold computes the last n elements of the accumulator
extended by the processed lines. -/
theorem foldl_pushLine (n : Nat) :
    ∀ (l acc : List String), acc.length ≤ n →
      l.foldl (pushLine n) acc = lastN n (acc ++ l) := by
  intro l
  induction l with
  | nil =>
    intro acc h
    simpa using (lastN_of_le h).symm
  | cons x xs ih =>
    intro acc h
    rw [List.foldl_cons, pushLine_eq_lastN x h]
    rw [ih _ (length_lastN_le n _)]
    rw [lastN_lastN_append, List.append_assoc]
    rfl

/-- The readLastLines helper of the console route returns exactly the last n
lines, oldest first. -/
theorem readLastLines_eq_lastN (lines : List String) (n : Nat) :
    readLastLines lines n = lastN n lines := by
  unfold readLastLines
  rw [foldl_pushLine n lines [] (by simp)]
  rfl

/-- When every file of a bulk move has a missing source or an occupied
destination, the loop only accumulates error entries and leaves the
filesystem untouched. -/
theorem moveMultiple_loop_conflict (sourceDir destDir : FsPath) :
    ∀ (filenames : List String) (fs : Fs) (acc : List MoveItemResult),
      (∀ f ∈ filenames,
        existsSync fs (pathJoin sourceDir f) = false ∨
        existsSync fs (pathJoin destDir f) = true) →
      filenames.foldl (moveOneFile sourceDir destDir) (fs, acc) =
        (fs, acc ++ filenames.map (fun f => ⟨f, false⟩)) := by
  intro filenames
  induction filenames with
  | nil => intro fs acc _; simp
  | cons f rest ih =>
    intro fs acc h
    rw [List.foldl_cons]
    have hf := h f (List.mem_cons_self f rest)
    have hstep : moveOneFile sourceDir destDir (fs, acc) f =
        (fs, acc ++ [⟨f, false⟩]) := by
      unfold moveOneFile
      rcases hf with hsrc | hdst
      · simp [hsrc]
      · cases hsrc2 : existsSync fs (pathJoin sourceDir f) with
        | false => simp [hsrc2]
        | true => simp [hsrc2, hdst]
    rw [hstep]
    rw [ih fs (acc ++ [({ filename := f, moved := false } : MoveItemResult)])
      (fun g hg => h g (List.mem_cons_of_mem f hg))]
    simp

/-- C1: the containment comparison of the scoped file routes is a raw string
startsWith against the rendered server root, not a path-segment comparison.
For server s1 and request path ../s1x the resolved path is the sibling
directory s1x, whose rendered form string-extends the root: the check
accepts it, the files route proceeds and lists the foreign directory, even
though the root is not a segment prefix of the resolved path.  This refutes
the claimed rejection of escaping dot-dot paths and of the root-evil versus
root confusion. -/
theorem c1_sibling_escape_accepted :
    pathJoin (serverPathOf "s1") "../s1x" = ["app", "servers", "s1x"] ∧
    containsCheck "s1" (scopedDir "s1" "../s1x") = true ∧
    segContained (serverPathOf "s1") (scopedDir "s1" "../s1x") = false ∧
    (listFilesHandler c1Fs "s1" "../s1x").1 = ListFilesResult.ok ["secret.txt"] := by
  refine ⟨by decide, by decide, by decide, by decide⟩

/-- C10: guard behavior of the command route and the fate of its success
branch, evaluated at concrete inputs.  An empty command yields the 400
outcome and a name with no registered pm2 process yields the 404 outcome,
in both cases with nothing forwarded; with a non-empty command and a
registered process the command is forwarded to that process id through the
pm2 messaging facility, but the handler then cannot report success: the
callback parameter shadows the HTTP response object, so the route never
answers (a TypeError is raised instead of a success response). -/
theorem c10_command_route_shadowed_response :
    commandHandler wProcs "s1" "" = (CommandOutcome.emptyCommand, []) ∧
    commandHandler wProcs "s2" "list" = (CommandOutcome.notRunning, []) ∧
    commandHandler wProcs "s1" "list" =
      (CommandOutcome.shadowedNoResponse, [(3, "list")]) := by
  refine ⟨by decide, by decide, by decide⟩

/-- C2: the global file routes accept any client-supplied absolute path with
no containment check of any kind.  With an active session and a non-empty
path: reading returns the stored content of any file on the host; writing
overwrites any OS-writable path with the supplied content; deleting removes
any existing entry, recursively when it is a directory. -/
theorem c2_global_routes_unrestricted (fs : Fs) (p : FsPath) (c c0 : String)
    (hp : p ≠ []) :
    (fsLookup fs p = some (FsNode.file c0) →
      apiFilesContentGet true fs p = ReadFileResult.ok c0) ∧
    (osWriteAllowed fs p = true →
      (apiFilesContentPost true fs p c).1 = WriteFileResult.ok ∧
      fsLookup (apiFilesContentPost true fs p c).2 p = some (FsNode.file c)) ∧
    (existsSync fs p = true →
      (apiFilesDelete true fs p).1 = DeleteFileResult.ok ∧
      existsSync (apiFilesDelete true fs p).2 p = false ∧
      (isDirectory fs p = true →
        ∀ q n, beginsWith p q = true → (q, n) ∉ (apiFilesDelete true fs p).2)) := by
  refine ⟨?_, ?_, ?_⟩
  · intro hlook
    simp [apiFilesContentGet, hp, existsSync_of_fsLookup hlook, hlook]
  · intro hw
    constructor
    · simp [apiFilesContentPost, hp, hw]
    · simp [apiFilesContentPost, hp, hw, fsLookup_fsWriteFile_self]
  · intro hex
    by_cases hdir : isDirectory fs p
    · refine ⟨?_, ?_, ?_⟩
      · simp [apiFilesDelete, hp, hex, hdir]
      · simp [apiFilesDelete, hp, hex, hdir, existsSync_rmRecursive_self]
      · intro _ q n hq
        simp [apiFilesDelete, hp, hex, hdir]
        exact not_mem_rmRecursive hq
    · refine ⟨?_, ?_, ?_⟩
      · simp [apiFilesDelete, hp, hex, hdir]
      · simp [apiFilesDelete, hp, hex, hdir, existsSync_fsUnlink_self]
      · intro hdir2
        exact absurd hdir2 (by simpa using hdir)

/-- Witness for C2: on the concrete host filesystem, the read route serves
the credential file outside the servers tree, the write route overwrites it,
and the delete route removes it. -/
theorem c2_witness :
    apiFilesContentGet true wFs ["etc", "passwd"] = ReadFileResult.ok "root:x" ∧
    fsLookup (apiFilesContentPost true wFs ["etc", "passwd"] "pwned").2
      ["etc", "passwd"] = some (FsNode.file "pwned") ∧
    existsSync (apiFilesDelete true wFs ["etc", "passwd"]).2 ["etc", "passwd"] = false := by
  refine ⟨?_, ?_, ?_⟩
  · exact (c2_global_routes_unrestricted wFs ["etc", "passwd"] "pwned" "root:x"
      (by decide)).1 (by decide)
  · exact ((c2_global_routes_unrestricted wFs ["etc", "passwd"] "pwned" "root:x"
      (by decide)).2.1 (by decide)).2
  · exact (((c2_global_routes_unrestricted wFs ["etc", "passwd"] "pwned" "root:x"
      (by decide)).2.2 (by decide)).2).1

/-- Entries already stored in the filesystem survive the directory creation
steps of the create route. -/
theorem mem_createServerDirs {fs : Fs} {e : FsPath × FsNode} (name : String)
    (h : e ∈ fs) : e ∈ createServerDirs fs name :=
  mem_mkdirRecursive _ (mem_mkdirRecursive _ (mem_mkdirRecursive _ (mem_mkdirRecursive _ h)))

/-- The three seed file paths of an instance are pairwise distinct. -/
theorem seedPaths_distinct (name : String) :
    pathJoin (serverPathOf name) "server.properties" ≠ pathJoin (serverPathOf name) "config.yml" ∧
    pathJoin (serverPathOf name) "server.properties" ≠ pathJoin (serverPathOf name) "bukkit.yml" ∧
    pathJoin (serverPathOf name) "config.yml" ≠ pathJoin (serverPathOf name) "bukkit.yml" := by
  have e1 : pathJoin (serverPathOf name) "server.properties" =
      serverPathOf name ++ ["server.properties"] :=
    pathJoin_single _ (by decide) (by decide) (by decide) (by decide)
  have e2 : pathJoin (serverPathOf name) "config.yml" = serverPathOf name ++ ["config.yml"] :=
    pathJoin_single _ (by decide) (by decide) (by decide) (by decide)
  have e3 : pathJoin (serverPathOf name) "bukkit.yml" = serverPathOf name ++ ["bukkit.yml"] :=
    pathJoin_single _ (by decide) (by decide) (by decide) (by decide)
  rw [e1, e2, e3]
  refine ⟨?_, ?_, ?_⟩ <;> · intro h; simp at h

set_option maxRecDepth 8192 in
/-- C3 counterexample: with server s1 already existing and holding
operator-customized config.yml content, the create route succeeds (no
Conflict outcome is ever produced) and its seed write replaces the
customized file, so the existing instance files are not left unchanged. -/
theorem c3_create_existing_counterexample :
    existsSync c3Fs (serverPathOf "s1") = true ∧
    fsLookup c3Fs (pathJoin (serverPathOf "s1") "config.yml") =
      some (FsNode.file "custom-settings") ∧
    (createServer c3Fs "s1" "now").1 = CreateResult.ok ∧
    fsLookup (createServer c3Fs "s1" "now").2 (pathJoin (serverPathOf "s1") "config.yml") =
      some (FsNode.file (configYmlContent "s1")) ∧
    configYmlContent "s1" ≠ "custom-settings" := by
  refine ⟨by decide, by decide, rfl, by decide, by decide⟩

/-- C3 amended: creating an instance whose name already exists succeeds
instead of failing Conflict: the directories are ensured idempotently, the
three seed configuration files are overwritten with fresh default content,
and every other existing entry is preserved. -/
theorem c3_create_existing_overwrites_seeds (fs : Fs) (name now : String)
    (hex : existsSync fs (serverPathOf name) = true) :
    (createServer fs name now).1 = CreateResult.ok ∧
    fsLookup (createServer fs name now).2 (pathJoin (serverPathOf name) "server.properties") =
      some (FsNode.file (serverPropertiesContent now)) ∧
    fsLookup (createServer fs name now).2 (pathJoin (serverPathOf name) "config.yml") =
      some (FsNode.file (configYmlContent name)) ∧
    fsLookup (createServer fs name now).2 (pathJoin (serverPathOf name) "bukkit.yml") =
      some (FsNode.file bukkitYmlContent) ∧
    ∀ e ∈ fs, e.1 ≠ pathJoin (serverPathOf name) "server.properties" →
      e.1 ≠ pathJoin (serverPathOf name) "config.yml" →
      e.1 ≠ pathJoin (serverPathOf name) "bukkit.yml" →
      e ∈ (createServer fs name now).2 := by
  obtain ⟨hne12, hne13, hne23⟩ := seedPaths_distinct name
  have hsnd : (createServer fs name now).2 =
      fsWriteFile (fsWriteFile (fsWriteFile (createServerDirs fs name)
        (pathJoin (serverPathOf name) "server.properties") (serverPropertiesContent now))
        (pathJoin (serverPathOf name) "config.yml") (configYmlContent name))
        (pathJoin (serverPathOf name) "bukkit.yml") bukkitYmlContent := rfl
  refine ⟨rfl, ?_, ?_, ?_, ?_⟩
  · rw [hsnd, fsLookup_fsWriteFile_ne _ _ hne13, fsLookup_fsWriteFile_ne _ _ hne12,
      fsLookup_fsWriteFile_self]
  · rw [hsnd, fsLookup_fsWriteFile_ne _ _ hne23, fsLookup_fsWriteFile_self]
  · rw [hsnd, fsLookup_fsWriteFile_self]
  · intro e he h1 h2 h3
    rw [hsnd]
    exact mem_fsWriteFile_of_ne _ h3 (mem_fsWriteFile_of_ne _ h2
      (mem_fsWriteFile_of_ne _ h1 (mem_createServerDirs name he)))

/-- Witness for C3: on the concrete filesystem with server s1 present, the
create route reports success, rewrites config.yml to the default template,
and keeps the unrelated file a.txt. -/
theorem c3_witness :
    (createServer wFs "s1" "ts").1 = CreateResult.ok ∧
    fsLookup (createServer wFs "s1" "ts").2 (pathJoin (serverPathOf "s1") "config.yml") =
      some (FsNode.file (configYmlContent "s1")) ∧
    (["app", "servers", "s1", "a.txt"], FsNode.file "hello") ∈ (createServer wFs "s1" "ts").2 := by
  have h := c3_create_existing_overwrites_seeds wFs "s1" "ts" (by decide)
  exact ⟨h.1, h.2.2.1, h.2.2.2.2 _ (by decide) (by decide) (by decide) (by decide)⟩

/-- C4: the scoped move, copy and rename routes fail with the Conflict
outcome (HTTP 400) when the destination path already exists before the call,
and with the NotFound outcome (HTTP 404) when the source is absent; in every
one of those failures the returned filesystem is exactly the input
filesystem, so nothing is created, moved or deleted. -/
theorem c4_conflict_and_notfound (fs : Fs)
    (serverName filename destinationPath currentPath oldName newName : String) :
    ((containsCheck serverName (scopedFilePath serverName currentPath filename) &&
        containsCheck serverName (scopedFilePath serverName destinationPath filename)) = true →
      existsSync fs (serverPathOf serverName) = true →
      existsSync fs (scopedFilePath serverName currentPath filename) = true →
      existsSync fs (scopedDir serverName destinationPath) = true →
      existsSync fs (scopedFilePath serverName destinationPath filename) = true →
      moveHandler fs serverName filename destinationPath currentPath =
        (FileOpResult.destExists, fs)) ∧
    ((containsCheck serverName (scopedFilePath serverName currentPath filename) &&
        containsCheck serverName (scopedFilePath serverName destinationPath filename)) = true →
      existsSync fs (serverPathOf serverName) = true →
      existsSync fs (scopedFilePath serverName currentPath filename) = false →
      moveHandler fs serverName filename destinationPath currentPath =
        (FileOpResult.sourceNotFound, fs)) ∧
    ((containsCheck serverName (scopedFilePath serverName currentPath filename) &&
        containsCheck serverName (scopedFilePath serverName destinationPath filename)) = true →
      existsSync fs (serverPathOf serverName) = true →
      existsSync fs (scopedFilePath serverName currentPath filename) = true →
      existsSync fs (scopedDir serverName destinationPath) = true →
      existsSync fs (scopedFilePath serverName destinationPath filename) = true →
      copyHandler fs serverName filename destinationPath currentPath =
        (FileOpResult.destExists, fs)) ∧
    ((containsCheck serverName (scopedFilePath serverName currentPath filename) &&
        containsCheck serverName (scopedFilePath serverName destinationPath filename)) = true →
      existsSync fs (serverPathOf serverName) = true →
      existsSync fs (scopedFilePath serverName currentPath filename) = false →
      copyHandler fs serverName filename destinationPath currentPath =
        (FileOpResult.sourceNotFound, fs)) ∧
    ((containsCheck serverName (scopedFilePath serverName currentPath oldName) &&
        containsCheck serverName (scopedFilePath serverName currentPath newName)) = true →
      existsSync fs (serverPathOf serverName) = true →
      existsSync fs (scopedFilePath serverName currentPath oldName) = true →
      existsSync fs (scopedFilePath serverName currentPath newName) = true →
      renameHandler fs serverName oldName newName currentPath =
        (FileOpResult.destExists, fs)) ∧
    ((containsCheck serverName (scopedFilePath serverName currentPath oldName) &&
        containsCheck serverName (scopedFilePath serverName currentPath newName)) = true →
      existsSync fs (serverPathOf serverName) = true →
      existsSync fs (scopedFilePath serverName currentPath oldName) = false →
      renameHandler fs serverName oldName newName currentPath =
        (FileOpResult.sourceNotFound, fs)) := by
  refine ⟨?_, ?_, ?_, ?_, ?_, ?_⟩
  · intro hg hs hsrc hdd hdf
    simp [moveHandler, hg, hs, hsrc, hdd, hdf]
  · intro hg hs hsrc
    simp [moveHandler, hg, hs, hsrc]
  · intro hg hs hsrc hdd hdf
    simp [copyHandler, hg, hs, hsrc, hdd, hdf]
  · intro hg hs hsrc
    simp [copyHandler, hg, hs, hsrc]
  · intro hg hs hsrc hdf
    simp [renameHandler, hg, hs, hsrc, hdf]
  · intro hg hs hsrc
    simp [renameHandler, hg, hs, hsrc]

/-- Witness for C4: on the concrete filesystem, moving, copying or renaming
a.txt onto the occupied destination fails with the Conflict outcome and
returns the filesystem unchanged, and the same operations on the missing
source nope.txt fail with the NotFound outcome and return the filesystem
unchanged. -/
theorem c4_witness :
    moveHandler wFs "s1" "a.txt" "d" "" = (FileOpResult.destExists, wFs) ∧
    moveHandler wFs "s1" "nope.txt" "d" "" = (FileOpResult.sourceNotFound, wFs) ∧
    copyHandler wFs "s1" "a.txt" "d" "" = (FileOpResult.destExists, wFs) ∧
    copyHandler wFs "s1" "nope.txt" "d" "" = (FileOpResult.sourceNotFound, wFs) ∧
    renameHandler wFs "s1" "a.txt" "d" "" = (FileOpResult.destExists, wFs) ∧
    renameHandler wFs "s1" "nope.txt" "b.txt" "" = (FileOpResult.sourceNotFound, wFs) := by
  refine ⟨?_, ?_, ?_, ?_, ?_, ?_⟩
  · exact (c4_conflict_and_notfound wFs "s1" "a.txt" "d" "" "x" "y").1
      (by decide) (by decide) (by decide) (by decide) (by decide)
  · exact (c4_conflict_and_notfound wFs "s1" "nope.txt" "d" "" "x" "y").2.1
      (by decide) (by decide) (by decide)
  · exact (c4_conflict_and_notfound wFs "s1" "a.txt" "d" "" "x" "y").2.2.1
      (by decide) (by decide) (by decide) (by decide) (by decide)
  · exact (c4_conflict_and_notfound wFs "s1" "nope.txt" "d" "" "x" "y").2.2.2.1
      (by decide) (by decide) (by decide)
  · exact (c4_conflict_and_notfound wFs "s1" "f" "g" "" "a.txt" "d").2.2.2.2.1
      (by decide) (by decide) (by decide) (by decide)
  · exact (c4_conflict_and_notfound wFs "s1" "f" "g" "" "nope.txt" "b.txt").2.2.2.2.2
      (by decide) (by decide) (by decide)

/-- C5: both extraction routes reject an archive whose filename does not end
in .zip case-insensitively, with the InvalidArgument outcome (HTTP 400), and
return the filesystem unchanged, so nothing is extracted or overwritten in
the target directory; this holds for every behavior of the external zip
codec. -/
theorem c5_extract_rejects_non_zip (extractAllTo : Fs → FsPath → FsPath → Fs)
    (fs : Fs) (serverName filename relativePath filePathStr : String)
    (targetPath : Option String) :
    (containsCheck serverName (scopedFilePath serverName relativePath filename) = true →
      existsSync fs (serverPathOf serverName) = true →
      existsSync fs (scopedFilePath serverName relativePath filename) = true →
      jsEndsWith (jsToLower filename) ".zip" = false →
      extractHandler extractAllTo fs serverName filename relativePath =
        (ExtractResult.notZip, fs)) ∧
    (filePathStr ≠ "" →
      existsSync fs (pathJoin [] filePathStr) = true →
      jsEndsWith (jsToLower filePathStr) ".zip" = false →
      apiExtract extractAllTo fs filePathStr targetPath =
        (ExtractGlobalResult.notZip, fs)) := by
  constructor
  · intro hg hs hf hz
    simp [extractHandler, hg, hs, hf, hz]
  · intro hp hf hz
    simp [apiExtract, hp, hf, hz]

/-- Witness for C5: extracting the non-zip archive arc.rar through either
route fails with the InvalidArgument outcome and leaves the filesystem as it
was, even with a codec action that would have written into the target. -/
theorem c5_witness :
    extractHandler sampleExtract wFs "s1" "arc.rar" "" = (ExtractResult.notZip, wFs) ∧
    apiExtract sampleExtract wFs "/app/servers/s1/arc.rar" none =
      (ExtractGlobalResult.notZip, wFs) := by
  constructor
  · exact (c5_extract_rejects_non_zip sampleExtract wFs "s1" "arc.rar" "" "x" none).1
      (by decide) (by decide) (by decide) (by decide)
  · exact (c5_extract_rejects_non_zip sampleExtract wFs "s1" "arc.rar" ""
      "/app/servers/s1/arc.rar" none).2 (by decide) (by decide) (by decide)

/-- A lookup that fails means the path is absent. -/
theorem existsSync_eq_false_of_fsLookup_none {fs : Fs} {p : FsPath}
    (h : fsLookup fs p = none) : existsSync fs p = false := by
  unfold fsLookup at h
  have hfind : fs.find? (fun e => e.1 = p) = none := by
    cases hf : fs.find? (fun e => e.1 = p) with
    | none => rfl
    | some e => rw [hf] at h; simp at h
  cases hx : existsSync fs p with
  | false => rfl
  | true =>
    exfalso
    simp only [existsSync, List.any_eq_true] at hx
    obtain ⟨e, hmem, hp⟩ := hx
    exact (List.find?_eq_none.mp hfind e hmem) hp

/-- mkdirSingle does not affect existence at a different path. -/
theorem existsSync_mkdirSingle_ne (fs : Fs) {p q : FsPath} (h : p ≠ q) :
    existsSync (mkdirSingle fs q) p = existsSync fs p := by
  unfold mkdirSingle
  by_cases hx : existsSync fs q
  · rw [if_pos hx]
  · rw [if_neg hx]
    simp only [existsSync, List.any_cons]
    have hne : (decide (((q, FsNode.dir) : FsPath × FsNode).1 = p)) = false := by
      simp [Ne.symm h]
    simp [hne]

/-- Creating an absent directory adds its entry. -/
theorem mem_mkdirSingle_self {fs : Fs} {p : FsPath} (h : existsSync fs p = false) :
    (p, FsNode.dir) ∈ mkdirSingle fs p := by
  unfold mkdirSingle
  rw [if_neg (by simp [h])]
  exact List.mem_cons_self _ _

/-- String concatenation is associative. -/
theorem strAppend_assoc (a b c : String) : a ++ b ++ c = a ++ (b ++ c) := by
  obtain ⟨la⟩ := a
  obtain ⟨lb⟩ := b
  obtain ⟨lc⟩ := c
  show String.mk (la ++ lb ++ lc) = String.mk (la ++ (lb ++ lc))
  rw [List.append_assoc]

/-- C6: registry consistency of the derived server list.  After a create of
a plain (slash-free) name whose path is not currently occupied by a regular
file, the list derived from the servers directory contains the name; after a
delete of the name, the derived list does not contain it, whether or not the
instance existed.  The list is recomputed from the filesystem state on every
query, with no cached registry state. -/
theorem c6_registry_create_delete_list (fs : Fs) (name now : String)
    (hseg : splitChar '/' name = [name]) (h1 : name ≠ "") (h2 : name ≠ ".")
    (h3 : name ≠ "..")
    (hclean : fsLookup fs (serverPathOf name) = none ∨
      fsLookup fs (serverPathOf name) = some FsNode.dir) :
    name ∈ (listServersRoute (createServer fs name now).2).1 ∧
    name ∉ (listServersRoute (deleteServer fs name).2).1 := by
  have hP : serverPathOf name = ["app", "servers", name] := by
    unfold serverPathOf
    rw [pathJoin_single serversDir hseg h1 h2 h3]
    rfl
  constructor
  · -- the created instance appears in the derived list
    have hmem1 : (["app", "servers", name], FsNode.dir) ∈
        mkdirRecursive fs (serverPathOf name) := by
      rw [hP]
      rcases hclean with hnone | hdir
      · have hex0 : existsSync fs ["app", "servers", name] = false := by
          rw [← hP]
          exact existsSync_eq_false_of_fsLookup_none hnone
        have hexA : existsSync (mkdirSingle (mkdirSingle fs ["app"]) ["app", "servers"])
            ["app", "servers", name] = false := by
          rw [existsSync_mkdirSingle_ne _ (by simp),
            existsSync_mkdirSingle_ne _ (by intro hc; simpa using congrArg List.length hc)]
          exact hex0
        show (["app", "servers", name], FsNode.dir) ∈
          mkdirSingle (mkdirSingle (mkdirSingle fs ["app"]) ["app", "servers"])
            ["app", "servers", name]
        exact mem_mkdirSingle_self hexA
      · have hfs : (["app", "servers", name], FsNode.dir) ∈ fs := by
          rw [← hP]
          exact mem_of_fsLookup hdir
        exact mem_mkdirRecursive _ hfs
    have hne1 : (["app", "servers", name] : FsPath) ≠
        pathJoin (serverPathOf name) "server.properties" := by
      rw [pathJoin_single _ (by decide) (by decide) (by decide) (by decide), hP]
      intro hc
      simpa using congrArg List.length hc
    have hne2 : (["app", "servers", name] : FsPath) ≠
        pathJoin (serverPathOf name) "config.yml" := by
      rw [pathJoin_single _ (by decide) (by decide) (by decide) (by decide), hP]
      intro hc
      simpa using congrArg List.length hc
    have hne3 : (["app", "servers", name] : FsPath) ≠
        pathJoin (serverPathOf name) "bukkit.yml" := by
      rw [pathJoin_single _ (by decide) (by decide) (by decide) (by decide), hP]
      intro hc
      simpa using congrArg List.length hc
    have hmem4 : (["app", "servers", name], FsNode.dir) ∈ createServerDirs fs name :=
      mem_mkdirRecursive _ (mem_mkdirRecursive _ (mem_mkdirRecursive _ hmem1))
    have hmem7 : (["app", "servers", name], FsNode.dir) ∈ (createServer fs name now).2 :=
      mem_fsWriteFile_of_ne _ hne3 (mem_fsWriteFile_of_ne _ hne2
        (mem_fsWriteFile_of_ne _ hne1 hmem4))
    have hroute : (listServersRoute (createServer fs name now).2).1 =
        listServers (if existsSync (createServer fs name now).2 serversDir
          then (createServer fs name now).2
          else mkdirRecursive (createServer fs name now).2 serversDir) := rfl
    rw [hroute, mem_listServers]
    by_cases hx : existsSync (createServer fs name now).2 serversDir
    · rw [if_pos hx]
      exact hmem7
    · rw [if_neg hx]
      exact mem_mkdirRecursive _ hmem7
  · -- after delete the name is gone from the derived list
    have hguard : jsStartsWith (renderPath (serverPathOf name)) (renderPath serversDir) = true := by
      unfold serverPathOf
      rw [pathJoin_single serversDir hseg h1 h2 h3]
      rcases renderPath_append_single serversDir name with hr | habs
      · rw [hr, strAppend_assoc]
        exact jsStartsWith_append _ _
      · exact absurd habs (by decide)
    intro hmem'
    have hroute : (listServersRoute (deleteServer fs name).2).1 =
        listServers (if existsSync (deleteServer fs name).2 serversDir
          then (deleteServer fs name).2
          else mkdirRecursive (deleteServer fs name).2 serversDir) := rfl
    rw [hroute, mem_listServers] at hmem'
    have htuple : (["app", "servers", name], FsNode.dir) ∈ (deleteServer fs name).2 := by
      by_cases hx : existsSync (deleteServer fs name).2 serversDir
      · rwa [if_pos hx] at hmem'
      · rw [if_neg hx] at hmem'
        rcases mem_mkdirRecursive_inv hmem' with hin | ⟨_, hlen⟩
        · exact hin
        · have h2len : serversDir.length = 2 := by decide
          simp [h2len] at hlen
    by_cases hx2 : existsSync fs (serverPathOf name)
    · have hdel : (deleteServer fs name).2 = rmRecursive fs (serverPathOf name) := by
        simp [deleteServer, hguard, hx2]
      rw [hdel, hP] at htuple
      exact not_mem_rmRecursive (beginsWith_refl _) htuple
    · have hdel : (deleteServer fs name).2 = fs := by
        simp [deleteServer, hguard, hx2]
      rw [hdel] at htuple
      have := existsSync_of_mem htuple
      rw [← hP] at this
      exact absurd this (by simp [hx2])

/-- Witness for C6: creating s2 on the concrete filesystem puts s2 in the
derived list, and deleting s2 removes it. -/
theorem c6_witness :
    "s2" ∈ (listServersRoute (createServer wFs "s2" "ts").2).1 ∧
    "s2" ∉ (listServersRoute (deleteServer wFs "s2").2).1 :=
  c6_registry_create_delete_list wFs "s2" "ts" (by decide) (by decide) (by decide)
    (by decide) (Or.inl (by decide))

/-- C7: the start route is a no-op success when a process with the server
name is already registered, whatever its status, leaving the process list
unchanged with no duplicate entry; when the name is absent and the server
directory exists, it registers exactly one new process bound to the server
root as its working directory, after which the status route reports the
process as running. -/
theorem c7_start_idempotent_and_status (fs : Fs) (procs : Pm2State)
    (serverName : String) (newPmId newPid : Nat) :
    (pm2Find procs serverName = none →
      existsSync fs (serverPathOf serverName) = true →
      startHandler fs procs serverName newPmId newPid =
        (StartResult.started,
          procs ++ [⟨serverName, "online", newPmId, newPid, serverPathOf serverName⟩]) ∧
      statusHandler (startHandler fs procs serverName newPmId newPid).2 serverName =
        ⟨true, "online"⟩) ∧
    (∀ p, pm2Find procs serverName = some p →
      startHandler fs procs serverName newPmId newPid =
        (StartResult.alreadyRunning, procs)) := by
  constructor
  · intro hnone hex
    have hstart : startHandler fs procs serverName newPmId newPid =
        (StartResult.started,
          procs ++ [⟨serverName, "online", newPmId, newPid, serverPathOf serverName⟩]) := by
      simp [startHandler, hnone, hex, pm2Start]
    refine ⟨hstart, ?_⟩
    rw [hstart]
    have hfind : pm2Find
        (procs ++ [⟨serverName, "online", newPmId, newPid, serverPathOf serverName⟩])
        serverName =
        some ⟨serverName, "online", newPmId, newPid, serverPathOf serverName⟩ := by
      unfold pm2Find
      rw [find?_append_of_none _ hnone]
      simp
    simp [statusHandler, hfind]
  · intro p hp
    simp [startHandler, hp]

/-- Witness for C7: starting s1 with an empty process list registers one
process at the server root and the status route then reports running; with
s1 already registered, start reports success and returns the list
unchanged. -/
theorem c7_witness :
    startHandler wFs [] "s1" 7 99 = (StartResult.started,
      [⟨"s1", "online", 7, 99, serverPathOf "s1"⟩]) ∧
    statusHandler (startHandler wFs [] "s1" 7 99).2 "s1" = ⟨true, "online"⟩ ∧
    startHandler wFs wProcs "s1" 7 99 = (StartResult.alreadyRunning, wProcs) := by
  have h := (c7_start_idempotent_and_status wFs [] "s1" 7 99).1 (by decide) (by decide)
  have h2 := (c7_start_idempotent_and_status wFs wProcs "s1" 7 99).2
    ⟨"s1", "online", 3, 42, ["app", "servers", "s1"]⟩ (by decide)
  exact ⟨h.1, h.2, h2⟩

/-- mkdir of a strictly shorter path cannot create a longer one. -/
theorem existsSync_mkdirRecursive_of_longer {fs : Fs} {p q : FsPath}
    (hlen : p.length < q.length) (h : existsSync fs q = false) :
    existsSync (mkdirRecursive fs p) q = false := by
  cases hx : existsSync (mkdirRecursive fs p) q with
  | false => rfl
  | true =>
    exfalso
    simp only [existsSync, List.any_eq_true] at hx
    obtain ⟨e, hmem, hp⟩ := hx
    simp only [decide_eq_true_eq] at hp
    rcases mem_mkdirRecursive_inv hmem with hin | ⟨_, hlen2⟩
    · have hq : existsSync fs e.1 = true := existsSync_of_mem (n := e.2) hin
      rw [hp] at hq
      exact absurd hq (by simp [h])
    · rw [hp] at hlen2
      omega

/-- C8: the console route on an existing server first materializes the log
directory and an empty log file when absent, reporting an empty line list as
a success; and when the log file exists with some content, it reports
exactly the last 100 lines of that content in file order, oldest of the tail
first, leaving the filesystem unchanged. -/
theorem c8_console_tail (fs : Fs) (serverName : String) (c : String) :
    (existsSync fs (serverPathOf serverName) = true →
      existsSync fs (pathJoin (scopedDir serverName "logs") "server.log") = false →
      (consoleHandler fs serverName).1 = ConsoleResult.logs [] ∧
      fsLookup (consoleHandler fs serverName).2
        (pathJoin (scopedDir serverName "logs") "server.log") =
          some (FsNode.file "")) ∧
    (existsSync fs (serverPathOf serverName) = true →
      existsSync fs (scopedDir serverName "logs") = true →
      fsLookup fs (pathJoin (scopedDir serverName "logs") "server.log") =
        some (FsNode.file c) →
      consoleHandler fs serverName =
        (ConsoleResult.logs (lastN 100 (linesOf c)), fs)) := by
  have hlogfile : pathJoin (scopedDir serverName "logs") "server.log" =
      scopedDir serverName "logs" ++ ["server.log"] :=
    pathJoin_single _ (by decide) (by decide) (by decide) (by decide)
  constructor
  · intro hs hnolog
    by_cases hld : existsSync fs (scopedDir serverName "logs")
    · have hcon : consoleHandler fs serverName =
          (ConsoleResult.logs (readLastLines (linesOf "") 100),
            fsWriteFile fs (pathJoin (scopedDir serverName "logs") "server.log") "") := by
        simp [consoleHandler, hs, hld, hnolog, fsLookup_fsWriteFile_self]
      rw [hcon]
      exact ⟨rfl, fsLookup_fsWriteFile_self _ _ _⟩
    · have hlen : (scopedDir serverName "logs").length <
          (pathJoin (scopedDir serverName "logs") "server.log").length := by
        rw [hlogfile]
        simp
      have hno1 := existsSync_mkdirRecursive_of_longer hlen hnolog
      have hcon : consoleHandler fs serverName =
          (ConsoleResult.logs (readLastLines (linesOf "") 100),
            fsWriteFile (mkdirRecursive fs (scopedDir serverName "logs"))
              (pathJoin (scopedDir serverName "logs") "server.log") "") := by
        simp [consoleHandler, hs, hld, hno1, fsLookup_fsWriteFile_self]
      rw [hcon]
      exact ⟨rfl, fsLookup_fsWriteFile_self _ _ _⟩
  · intro hs hld hlog
    have hex := existsSync_of_fsLookup hlog
    simp [consoleHandler, hs, hld, hex, hlog, readLastLines_eq_lastN]

/-- Witness for C8: on the server s2 with no prior log file the console
route reports an empty line list and an empty log file now exists on disk;
on the server s1 with a three-line log it reports the three lines in file
order and leaves the filesystem unchanged. -/
theorem c8_witness :
    (consoleHandler c8Fs "s2").1 = ConsoleResult.logs [] ∧
    fsLookup (consoleHandler c8Fs "s2").2 ["app", "servers", "s2", "logs", "server.log"] =
      some (FsNode.file "") ∧
    consoleHandler wFs "s1" = (ConsoleResult.logs ["one", "two", "three"], wFs) := by
  have h1 := (c8_console_tail c8Fs "s2" "").1 (by decide) (by decide)
  have h2 := (c8_console_tail wFs "s1" "one\ntwo\nthree\n").2 (by decide) (by decide)
    (by decide)
  refine ⟨h1.1, ?_, ?_⟩
  · have hp := h1.2
    rwa [show pathJoin (scopedDir "s2" "logs") "server.log" =
      ["app", "servers", "s2", "logs", "server.log"] from by decide] at hp
  · rw [h2]
    decide

/-- C9 counterexample: a bulk move whose single file already exists in the
destination directory does not fail with a 400 or 404 response: the route
responds 200 with a per-file error entry and the filesystem unchanged. -/
theorem c9_move_multiple_counterexample :
    existsSync wFs (scopedFilePath "s1" "d" "a.txt") = true ∧
    moveMultipleHandler wFs "s1" ["a.txt"] "d" "" =
      (MoveMultipleResult.completed [{ filename := "a.txt", moved := false }], wFs) ∧
    moveMultipleStatus (moveMultipleHandler wFs "s1" ["a.txt"] "d" "").1 = 200 := by
  refine ⟨by decide, by decide, by decide⟩

/-- C9 amended: per-file conflicts and missing sources do not fail the bulk
move route.  When the containment check passes and the server and the
destination directory exist, the route always responds 200 completed; when
every requested file has a missing source or an occupied destination, every
per-file result is an error entry and the filesystem is returned
unchanged.  The route fails 404 only for a missing server or missing
destination directory and 400 only for the containment check. -/
theorem c9_move_multiple_per_file_errors (fs : Fs) (serverName : String)
    (filenames : List String) (destinationPath currentPath : String)
    (hg : (containsCheck serverName (scopedDir serverName currentPath) &&
      containsCheck serverName (scopedDir serverName destinationPath)) = true)
    (hs : existsSync fs (serverPathOf serverName) = true)
    (hd : existsSync fs (scopedDir serverName destinationPath) = true)
    (hall : ∀ f ∈ filenames,
      existsSync fs (pathJoin (scopedDir serverName currentPath) f) = false ∨
      existsSync fs (pathJoin (scopedDir serverName destinationPath) f) = true) :
    moveMultipleHandler fs serverName filenames destinationPath currentPath =
      (MoveMultipleResult.completed
        (filenames.map fun f => { filename := f, moved := false }), fs) ∧
    moveMultipleStatus
      (moveMultipleHandler fs serverName filenames destinationPath currentPath).1 = 200 := by
  have hloop := moveMultiple_loop_conflict (scopedDir serverName currentPath)
    (scopedDir serverName destinationPath) filenames fs [] hall
  have hm : moveMultipleHandler fs serverName filenames destinationPath currentPath =
      (MoveMultipleResult.completed
        (filenames.map fun f => { filename := f, moved := false }), fs) := by
    simp [moveMultipleHandler, hg, hs, hd, hloop]
  refine ⟨hm, ?_⟩
  rw [hm]
  rfl

/-- Witness for C9: a bulk move of one conflicting file and one missing
file responds completed with two error entries and the filesystem
unchanged. -/
theorem c9_witness :
    moveMultipleHandler wFs "s1" ["a.txt", "nope.txt"] "d" "" =
      (MoveMultipleResult.completed
        [{ filename := "a.txt", moved := false },
         { filename := "nope.txt", moved := false }], wFs) := by
  have h := c9_move_multiple_per_file_errors wFs "s1" ["a.txt", "nope.txt"] "d" ""
    (by decide) (by decide) (by decide) (by decide)
  rw [h.1]
  rfl

end MCManager
